import Mathlib

/-!
Formal model of the point-cloud label editor in `pcd_check_json.py`.

Scalars that the program keeps as Python floats are modelled as exact
rationals (`ℚ`); the two code paths that go through the transcendental
functions `math.radians` / `math.degrees` / `math.cos` / `math.sin` are
modelled over the reals (`ℝ`), or take the already-evaluated
cosine/sine pair as arguments.  Python strings are modelled through
their character lists so that every operation reduces in the kernel.
Functions that in the source mutate `self.data` in place are modelled
as pure functions from the old state to the new state; a function that
returns without writing is modelled as returning `none` (no new state).
-/

namespace PcdCheckJson

/-- Python `str.lower`, modelled on the character list (ASCII case folding,
which is all the repository's file names use). -/
def pyLower (s : String) : String := ⟨s.data.map Char.toLower⟩

/-- Python `str.startswith`. -/
def pyStartsWith (s pre : String) : Bool :=
  s.data.take pre.data.length == pre.data

/-- Python `str.endswith`. -/
def pyEndsWith (s suf : String) : Bool :=
  s.data.drop (s.data.length - suf.data.length) == suf.data

/-- Python `str.strip()` with no argument: remove leading and trailing
whitespace. -/
def pyStrip (s : String) : String :=
  ⟨((s.data.dropWhile Char.isWhitespace).reverse.dropWhile Char.isWhitespace).reverse⟩

/-- Position at which `os.path.splitext` starts the extension of a bare file
name (no directory separators): the last dot that has some non-dot character
before it.  `none` when the name has no extension. -/
def extIndex (cs : List Char) : Option Nat :=
  ((List.range cs.length).filter (fun i =>
      cs.getD i ('.') == ('.') &&
      (List.range i).any (fun j => cs.getD j ('.') != ('.')))).getLast?

/-- Stem of a file name: `os.path.splitext(name)[0]`. -/
def pyStem (s : String) : String :=
  match extIndex s.data with
  | some i => ⟨s.data.take i⟩
  | none => s

/-- Code-point lexicographic strict comparison of character lists: Python's
`<` on strings. -/
def lexLt : List Char → List Char → Bool
  | [], [] => false
  | [], _ :: _ => true
  | _ :: _, [] => false
  | a :: as, b :: bs => a.toNat < b.toNat || (a.toNat == b.toNat && lexLt as bs)

/-- Code-point lexicographic comparison of character lists: Python's `<=` on
strings, used to model `list.sort` with a string key. -/
def lexLe : List Char → List Char → Bool
  | [], _ => true
  | _ :: _, [] => false
  | a :: as, b :: bs => a.toNat < b.toNat || (a.toNat == b.toNat && lexLe as bs)

/-- Comparison used by `heapq.nlargest` inside `difflib.get_close_matches` on
`(score, candidate)` pairs: `p` beats `q` when its score is higher, or on a
score tie when its candidate string is lexicographically larger. -/
def gcmBetter (p q : ℚ × String) : Bool :=
  decide (q.1 < p.1) || (decide (p.1 = q.1) && lexLt q.2.data p.2.data)

/-- One step of the best-candidate selection: keep the better of the current
best and the next scored candidate; on an exact tie the earlier one wins. -/
def gcmStep (best : Option (ℚ × String)) (p : ℚ × String) : Option (ℚ × String) :=
  match best with
  | none => some p
  | some b => if gcmBetter p b then some p else some b

/-- Candidates scored by the similarity function and filtered by the cutoff,
in list order, as built inside `difflib.get_close_matches`. -/
def gcmScored (sim : String → String → ℚ) (word : String) (cutoff : ℚ)
    (poss : List String) : List (ℚ × String) :=
  poss.filterMap (fun x => if cutoff ≤ sim word x then some (sim word x, x) else none)

/-- Model of `difflib.get_close_matches(word, poss, n=1, cutoff)`: the
highest-scoring candidate whose similarity is at or above the cutoff, if any.
The similarity function `sim` abstracts `difflib.SequenceMatcher.ratio`
(an edit-distance-based rational in `[0, 1]`, with `sim a a = 1` and
`sim a b < 1` for `a ≠ b`); the repository only calls the matcher through
this interface, so every claim is proved for an arbitrary `sim`. -/
def get_close_matches1 (sim : String → String → ℚ) (word : String)
    (poss : List String) (cutoff : ℚ) : Option String :=
  ((gcmScored sim word cutoff poss).foldl gcmStep none).map Prod.snd

/-- Concrete similarity function usable for closed evaluations: exact match
scores 1, anything else 0.  It agrees with `difflib.SequenceMatcher.ratio`
on every pair at which the concrete theorems below evaluate it. -/
def eqSim (a b : String) : ℚ := if a = b then 1 else 0

/-- One label of one frame: the `{"Class": ..., "BoundingBoxes": [...]}`
dictionaries stored under a record's `Labels` key. -/
structure Label where
  Class : String
  BoundingBoxes : List ℚ
deriving DecidableEq

/-- One record of the label JSON file: `{"File": ..., "Labels": [...]}`. -/
structure Record where
  File : String
  Labels : List Label
deriving DecidableEq

/-- Placeholder label used only as the default of list lookups. -/
def emptyLabel : Label := { Class := (""), BoundingBoxes := [] }

/-- The `.pcd` directory listing as the source filters it:
`[f for f in os.listdir(pcd_dir) if f.lower().endswith(".pcd")]`. -/
def pcdFiles (listing : List String) : List String :=
  listing.filter (fun f => pyEndsWith (pyLower f) (".pcd"))

/-- Stems of the filtered point-cloud files:
`basenames = [os.path.splitext(f)[0] for f in pcd_files]`. -/
def basenamesOf (listing : List String) : List String :=
  (pcdFiles listing).map pyStem

/-- The matching loop of `sync_json_pcd_filenames`: for each record in order,
fuzzy-match its `File` stem against `names`; abort (`none`) at the first
record with no match, otherwise collect `matched_stem + ".pcd"` for every
record. -/
def matchAll (sim : String → String → ℚ) (recs : List Record)
    (names : List String) (cutoff : ℚ) : Option (List String) :=
  match recs with
  | [] => some []
  | r :: rs =>
    match get_close_matches1 sim (pyStem r.File) names cutoff with
    | none => none
    | some m => (matchAll sim rs names cutoff).map (fun t => (m ++ (".pcd")) :: t)

/-- The final sort of `sync_json_pcd_filenames`:
`data.sort(key=lambda r: os.path.splitext(r["File"])[0])` — a stable sort of
the records, ascending by the stem of the `File` field. -/
def sortByFileStem (rs : List Record) : List Record :=
  rs.mergeSort (fun a b => lexLe (pyStem a.File).data (pyStem b.File).data)

/-- Model of `sync_json_pcd_filenames`.  The result is `none` exactly when
the source shows a warning and returns without touching the JSON file, and
`some out` when the source overwrites the JSON file with `out` (records with
rewritten `File` fields, re-sorted by stem).  The Python default for
`cutoff` is `0.6`. -/
def sync_json_pcd_filenames (sim : String → String → ℚ) (data : List Record)
    (listing : List String) (cutoff : ℚ) : Option (List Record) :=
  if data.length = (pcdFiles listing).length then
    match matchAll sim data (basenamesOf listing) cutoff with
    | none => none
    | some new_files =>
        some (sortByFileStem ((data.zip new_files).map
          (fun p => { p.1 with File := p.2 })))
  else none

/-- Model of `Editor._find_pcd`: resolve one frame's file reference to a
point-cloud file for display.  First the exact `cloud_<stem>_` prefix scan
(the loop returns the first hit in directory order), then the fuzzy match
with cutoff `0.6`; a pure lookup that touches no record. -/
def _find_pcd (sim : String → String → ℚ) (img : String)
    (files : List String) : Option String :=
  let base := pyStem img
  let cands := files.filter (fun f => pyEndsWith f (".pcd"))
  let pref := ("cloud_") ++ base ++ ("_")
  match cands.find? (fun f => pyStartsWith f pref) with
  | some f => some f
  | none =>
      (get_close_matches1 sim base (cands.map pyStem) (3 / 5)).map
        (fun m => m ++ (".pcd"))

/-- Model of the static `Editor._corners(cx, cy, cz, w, h, d, y)`.  The
source computes `c, s = math.cos(y), math.sin(y)` and applies the rotation
matrix `[[c, -s, 0], [s, c, 0], [0, 0, 1]]` (transposed on the right of the
corner rows) before translating by the center; since cosine and sine are
transcendental, the embedding takes the evaluated pair `(c, s)` as
arguments, so a statement over all `(c, s)` covers all yaw values. -/
def _corners (cx cy cz w h d : ℚ) (c s : ℚ) : List (ℚ × ℚ × ℚ) :=
  let sx := w / 2
  let sy := h / 2
  let sz := d / 2
  let loc : List (ℚ × ℚ × ℚ) :=
    [(sx, sy, sz), (sx, -sy, sz), (-sx, -sy, sz), (-sx, sy, sz),
     (sx, sy, -sz), (sx, -sy, -sz), (-sx, -sy, -sz), (-sx, sy, -sz)]
  loc.map (fun p => (p.1 * c - p.2.1 * s + cx, p.1 * s + p.2.1 * c + cy, p.2.2 + cz))

/-- Mean of a list of 3-D points, as `self.pts.mean(0)` with the source's
guard `if len(self.pts) else (0, 0, 0)`. -/
def centroid (pts : List (ℚ × ℚ × ℚ)) : ℚ × ℚ × ℚ :=
  if pts.length = 0 then (0, 0, 0)
  else ((pts.map (fun p => p.1)).sum / (pts.length : ℚ),
        (pts.map (fun p => p.2.1)).sum / (pts.length : ℚ),
        (pts.map (fun p => p.2.2)).sum / (pts.length : ℚ))

/-- Model of `Editor._bbox_params`: read one label's `BoundingBoxes` list
from the current frame's label list. -/
def _bbox_params (labs : List Label) (idx : Nat) : List ℚ :=
  (labs.getD idx emptyLabel).BoundingBoxes

/-- Model of `Editor._set_bbox_params`: store a parameter list verbatim into
one label of the current frame (no validation of any kind). -/
def _set_bbox_params (labs : List Label) (idx : Nat) (params : List ℚ) : List Label :=
  labs.set idx { labs.getD idx emptyLabel with BoundingBoxes := params }

/-- The three 2-D projections and their axis pairs:
`xy = (0, 1)`, `xz = (0, 2)`, `yz = (1, 2)`. -/
inductive Axes
  | xy
  | xz
  | yz
deriving DecidableEq

/-- Model of `Editor._roi_moved` on one label's parameter list: split the
stored list into the first seven scalars and the tail, overwrite the slots
belonging to the edited view with `center = pos + size/2` and
`extent = size`, and reassemble with the untouched slots and tail.  In
Python the seven-way unpacking of `full[:7]` raises on a shorter list, so
the model returns `none` there (the claims only concern lists with at least
seven scalars). -/
def _roi_moved (axes : Axes) (px py sx sy : ℚ) (full : List ℚ) : Option (List ℚ) :=
  if 7 ≤ full.length then
    let cx := full.getD 0 0
    let cy := full.getD 1 0
    let cz := full.getD 2 0
    let w := full.getD 3 0
    let h := full.getD 4 0
    let d := full.getD 5 0
    let yaw := full.getD 6 0
    let tail := full.drop 7
    some (match axes with
      | Axes.xy => (px + sx * (1 / 2)) :: (py + sy * (1 / 2)) :: cz :: sx :: sy :: d :: yaw :: tail
      | Axes.xz => (px + sx * (1 / 2)) :: cy :: (py + sy * (1 / 2)) :: sx :: h :: sy :: yaw :: tail
      | Axes.yz => cx :: (px + sx * (1 / 2)) :: (py + sy * (1 / 2)) :: w :: sx :: sy :: yaw :: tail)
  else none

/-- The full path of a rectangle-edit commit into the store:
`_roi_moved` reads the label's current parameters and writes the rebuilt
list back through `_set_bbox_params` with no intervening check. -/
def roiCommit (labs : List Label) (idx : Nat) (axes : Axes)
    (px py sx sy : ℚ) : List Label :=
  match _roi_moved axes px py sx sy (_bbox_params labs idx) with
  | some p => _set_bbox_params labs idx p
  | none => labs

/-- Model of `Editor._delete_label` (the effective, last definition in the
source): with a valid selection index and a confirmed dialog, remove the
label at that index (`labs.pop(idx)`); otherwise change nothing.  The
source's guard is `0 <= idx < len(labs)`; the lower bound is vacuous for a
natural-number index. -/
def _delete_label (labs : List Label) (idx : Nat) (confirm : Bool) : List Label :=
  if idx < labs.length ∧ confirm = true then labs.eraseIdx idx else labs

/-- Model of `Editor._add_label`: with a confirmed dialog and a non-blank
class name, append one label whose box is
`[*centroid, 1, 1, 1, 0, 0, 0]`; otherwise change nothing (`none`). -/
def _add_label (pts : List (ℚ × ℚ × ℚ)) (labs : List Label) (ok : Bool)
    (txt : String) : Option (List Label) :=
  if ok = true ∧ pyStrip txt ≠ ("") then
    some (labs ++ [{ Class := pyStrip txt,
                     BoundingBoxes := [(centroid pts).1, (centroid pts).2.1, (centroid pts).2.2,
                                       1, 1, 1, 0, 0, 0] }])
  else none

/-- Python `math.radians`. -/
noncomputable def radians (deg : ℝ) : ℝ := deg * (Real.pi / 180)

/-- Python `math.degrees`. -/
noncomputable def degrees (x : ℝ) : ℝ := x * (180 / Real.pi)

/-- Python `%` on reals with a positive right operand:
`x - m * floor(x / m)`. -/
noncomputable def pymod (x m : ℝ) : ℝ := x - m * (⌊x / m⌋ : ℤ)

/-- Model of `Editor._rot_bbox` on the selected label's parameter list:
`labs[idx]["BoundingBoxes"][6] = math.radians(deg)` — overwrite slot 6 and
nothing else.  The yaw path goes through `math.radians`, so this model lives
over the reals. -/
noncomputable def _rot_bbox (deg : ℝ) (params : List ℝ) : List ℝ :=
  params.set 6 (radians deg)

/-- Model of `Editor._sync_slider`'s read of the store: the rotation control
is set to `int(math.degrees(yaw) % 360)` for the stored yaw (slot 6) of the
newly selected label; a pure read that writes nothing back. -/
noncomputable def _sync_slider (params : List ℝ) : ℤ :=
  ⌊pymod (degrees (params.getD 6 0)) 360⌋

/-! Helper lemmas about the best-candidate fold of `get_close_matches1`. -/

theorem gcmStep_none_eq (p : ℚ × String) : gcmStep none p = some p := rfl

theorem gcmStep_some_eq (b p : ℚ × String) :
    gcmStep (some b) p = if gcmBetter p b = true then some p else some b := rfl

theorem gcmBetter_true_le {p q : ℚ × String} (h : gcmBetter p q = true) :
    q.1 ≤ p.1 := by
  rcases Bool.or_eq_true_iff.mp h with h' | h'
  · exact le_of_lt (of_decide_eq_true h')
  · exact le_of_eq (of_decide_eq_true (Bool.and_eq_true_iff.mp h').1).symm

theorem gcmBetter_false_le {p q : ℚ × String} (h : gcmBetter p q = false) :
    p.1 ≤ q.1 := by
  have h1 := (Bool.or_eq_false_iff.mp h).1
  exact le_of_not_lt (of_decide_eq_false h1)

theorem gcmFold_mem (l : List (ℚ × String)) (p : ℚ × String) :
    ∀ acc, l.foldl gcmStep acc = some p → acc = some p ∨ p ∈ l := by
  induction l with
  | nil => intro acc h; exact Or.inl h
  | cons q l ih =>
    intro acc h
    rw [List.foldl_cons] at h
    rcases ih (gcmStep acc q) h with h' | h'
    · cases acc with
      | none =>
        rw [gcmStep_none_eq] at h'
        injection h' with h'
        exact Or.inr (by rw [← h']; exact List.mem_cons_self _ _)
      | some b =>
        rw [gcmStep_some_eq] at h'
        rcases Bool.eq_false_or_eq_true (gcmBetter q b) with hb | hb
        · rw [hb, if_pos rfl] at h'
          injection h' with h'
          exact Or.inr (by rw [← h']; exact List.mem_cons_self _ _)
        · rw [hb, if_neg Bool.false_ne_true] at h'
          exact Or.inl h'
    · exact Or.inr (List.mem_cons_of_mem _ h')

theorem gcmFold_score_le (l : List (ℚ × String)) (p : ℚ × String) :
    ∀ acc, l.foldl gcmStep acc = some p →
      (∀ q ∈ l, q.1 ≤ p.1) ∧ (∀ b, acc = some b → b.1 ≤ p.1) := by
  induction l with
  | nil =>
    intro acc h
    simp only [List.foldl_nil] at h
    refine ⟨by simp, fun b hb => ?_⟩
    rw [hb] at h
    injection h with h
    rw [h]
  | cons q l ih =>
    intro acc h
    rw [List.foldl_cons] at h
    obtain ⟨H1, H2⟩ := ih (gcmStep acc q) h
    have hq : q.1 ≤ p.1 := by
      cases acc with
      | none => exact H2 q rfl
      | some b =>
        rcases Bool.eq_false_or_eq_true (gcmBetter q b) with hb | hb
        · exact H2 q (by rw [gcmStep_some_eq, hb, if_pos rfl])
        · have hbp : b.1 ≤ p.1 := H2 b (by
            rw [gcmStep_some_eq, hb, if_neg Bool.false_ne_true])
          exact le_trans (gcmBetter_false_le hb) hbp
    refine ⟨fun q' hq' => ?_, fun b hb => ?_⟩
    · rcases List.mem_cons.mp hq' with h' | h'
      · rw [h']; exact hq
      · exact H1 q' h'
    · cases acc with
      | none => cases hb
      | some b' =>
        injection hb with hbb
        subst hbb
        rcases Bool.eq_false_or_eq_true (gcmBetter q b') with hgb | hgb
        · exact le_trans (gcmBetter_true_le hgb) hq
        · exact H2 b' (by
            rw [gcmStep_some_eq, hgb, if_neg Bool.false_ne_true])

theorem gcmFold_isSome_of_some (l : List (ℚ × String)) :
    ∀ b, (l.foldl gcmStep (some b)).isSome = true := by
  induction l with
  | nil => intro b; rfl
  | cons q l ih =>
    intro b
    rw [List.foldl_cons, gcmStep_some_eq]
    rcases Bool.eq_false_or_eq_true (gcmBetter q b) with hb | hb
    · rw [hb, if_pos rfl]
      exact ih q
    · rw [hb, if_neg Bool.false_ne_true]
      exact ih b

theorem gcmFold_isSome (l : List (ℚ × String)) (hl : l ≠ []) :
    (l.foldl gcmStep none).isSome = true := by
  cases l with
  | nil => exact absurd rfl hl
  | cons q l =>
    rw [List.foldl_cons]
    exact gcmFold_isSome_of_some l q

theorem gcm1_some_spec (sim : String → String → ℚ) (word : String)
    (poss : List String) (cutoff : ℚ) (m : String)
    (h : get_close_matches1 sim word poss cutoff = some m) :
    m ∈ poss ∧ cutoff ≤ sim word m ∧
      ∀ x ∈ poss, cutoff ≤ sim word x → sim word x ≤ sim word m := by
  obtain ⟨p, hp, hpm⟩ := Option.map_eq_some'.mp h
  have hmem : p ∈ gcmScored sim word cutoff poss := by
    rcases gcmFold_mem _ p none hp with h' | h'
    · cases h'
    · exact h'
  obtain ⟨x, hx, hfx⟩ := List.mem_filterMap.mp hmem
  by_cases hcut : cutoff ≤ sim word x
  · rw [if_pos hcut] at hfx
    injection hfx with hfx'
    subst hfx'
    have hxm : x = m := hpm
    subst hxm
    refine ⟨hx, hcut, fun y hy hys => ?_⟩
    have hsc : (sim word y, y) ∈ gcmScored sim word cutoff poss :=
      List.mem_filterMap.mpr ⟨y, hy, by rw [if_pos hys]⟩
    exact (gcmFold_score_le _ _ none hp).1 (sim word y, y) hsc
  · rw [if_neg hcut] at hfx
    cases hfx

theorem gcm1_isSome (sim : String → String → ℚ) (word : String)
    (poss : List String) (cutoff : ℚ) (x : String) (hx : x ∈ poss)
    (hcut : cutoff ≤ sim word x) :
    ∃ m, get_close_matches1 sim word poss cutoff = some m := by
  have hsc : (sim word x, x) ∈ gcmScored sim word cutoff poss :=
    List.mem_filterMap.mpr ⟨x, hx, by rw [if_pos hcut]⟩
  have hne : gcmScored sim word cutoff poss ≠ [] := List.ne_nil_of_mem hsc
  have := gcmFold_isSome (gcmScored sim word cutoff poss) hne
  obtain ⟨p, hp⟩ := Option.isSome_iff_exists.mp this
  exact ⟨p.2, by rw [get_close_matches1, hp]; rfl⟩

theorem gcm1_self (sim : String → String → ℚ) (w : String) (poss : List String)
    (cutoff : ℚ) (hmem : w ∈ poss) (h1 : sim w w = 1)
    (hlt : ∀ x, x ≠ w → sim w x < 1) (hc : cutoff ≤ 1) :
    get_close_matches1 sim w poss cutoff = some w := by
  obtain ⟨m, hm⟩ := gcm1_isSome sim w poss cutoff w hmem (by rw [h1]; exact hc)
  obtain ⟨hmp, _, hmax⟩ := gcm1_some_spec sim w poss cutoff m hm
  have hle : (1 : ℚ) ≤ sim w m := by
    have := hmax w hmem (by rw [h1]; exact hc)
    rwa [h1] at this
  by_cases hmw : m = w
  · rw [hmw] at hm; exact hm
  · exact absurd hle (not_le_of_lt (hlt m hmw))

/-! Helper lemmas about the matching loop, zipping and the sort order. -/

theorem matchAll_none_of_fail (sim : String → String → ℚ) (recs : List Record)
    (names : List String) (cutoff : ℚ) (r : Record) (hr : r ∈ recs)
    (hfail : get_close_matches1 sim (pyStem r.File) names cutoff = none) :
    matchAll sim recs names cutoff = none := by
  induction recs with
  | nil => cases hr
  | cons r0 rs ih =>
    rcases List.mem_cons.mp hr with h' | h'
    · show (match get_close_matches1 sim (pyStem r0.File) names cutoff with
        | none => none
        | some m => (matchAll sim rs names cutoff).map (fun t => (m ++ (".pcd")) :: t)) = none
      rw [← h', hfail]
    · show (match get_close_matches1 sim (pyStem r0.File) names cutoff with
        | none => none
        | some m => (matchAll sim rs names cutoff).map (fun t => (m ++ (".pcd")) :: t)) = none
      cases hgc : get_close_matches1 sim (pyStem r0.File) names cutoff with
      | none => rfl
      | some m => rw [ih h']; rfl

theorem matchAll_some_spec (sim : String → String → ℚ) (recs : List Record)
    (names : List String) (cutoff : ℚ) :
    ∀ nf, matchAll sim recs names cutoff = some nf →
      nf.length = recs.length ∧
      ∀ (i : Nat) (r : Record), recs[i]? = some r →
        ∃ m, get_close_matches1 sim (pyStem r.File) names cutoff = some m ∧
          nf[i]? = some (m ++ (".pcd")) := by
  induction recs with
  | nil =>
    intro nf h
    injection h with h
    subst h
    exact ⟨rfl, fun i r hr => by simp at hr⟩
  | cons r0 rs ih =>
    intro nf h
    have h' : (match get_close_matches1 sim (pyStem r0.File) names cutoff with
        | none => none
        | some m => (matchAll sim rs names cutoff).map (fun t => (m ++ (".pcd")) :: t))
          = some nf := h
    cases hgc : get_close_matches1 sim (pyStem r0.File) names cutoff with
    | none => rw [hgc] at h'; cases h'
    | some m =>
      rw [hgc] at h'
      obtain ⟨t, ht, hcons⟩ := Option.map_eq_some'.mp h'
      obtain ⟨hlen, hspec⟩ := ih t ht
      subst hcons
      refine ⟨by simp [hlen], fun i r hr => ?_⟩
      cases i with
      | zero =>
        simp only [List.getElem?_cons_zero, Option.some.injEq] at hr
        subst hr
        exact ⟨m, hgc, by simp⟩
      | succ n =>
        simp only [List.getElem?_cons_succ] at hr ⊢
        exact hspec n r hr

theorem matchAll_of_self (sim : String → String → ℚ) (recs : List Record)
    (names : List String) (cutoff : ℚ)
    (h : ∀ r ∈ recs, get_close_matches1 sim (pyStem r.File) names cutoff
      = some (pyStem r.File)) :
    matchAll sim recs names cutoff
      = some (recs.map (fun r => pyStem r.File ++ (".pcd"))) := by
  induction recs with
  | nil => rfl
  | cons r0 rs ih =>
    have h0 := h r0 (List.mem_cons_self _ _)
    have hrest := ih (fun r hr => h r (List.mem_cons_of_mem _ hr))
    show (match get_close_matches1 sim (pyStem r0.File) names cutoff with
      | none => none
      | some m => (matchAll sim rs names cutoff).map (fun t => (m ++ (".pcd")) :: t))
        = some ((r0 :: rs).map (fun r => pyStem r.File ++ (".pcd")))
    rw [h0, hrest]
    rfl

theorem zip_getElem? {α β : Type} (l₁ : List α) (l₂ : List β) (i : Nat)
    (p : α × β) (h : (l₁.zip l₂)[i]? = some p) :
    l₁[i]? = some p.1 ∧ l₂[i]? = some p.2 := by
  induction l₁ generalizing l₂ i with
  | nil => simp at h
  | cons a as ih =>
    cases l₂ with
    | nil => simp at h
    | cons b bs =>
      cases i with
      | zero =>
        simp only [List.zip_cons_cons, List.getElem?_cons_zero,
          Option.some.injEq] at h
        subst h
        exact ⟨by simp, by simp⟩
      | succ n =>
        simp only [List.zip_cons_cons, List.getElem?_cons_succ] at h ⊢
        exact ih bs n h

theorem zip_map_self {α β γ : Type} (l : List α) (g : α → β) (F : α → β → γ) :
    (l.zip (l.map g)).map (fun p => F p.1 p.2) = l.map (fun r => F r (g r)) := by
  induction l with
  | nil => rfl
  | cons a as ih => simp only [List.map_cons, List.zip_cons_cons, ih]

theorem lexLe_trans : ∀ a b c : List Char,
    lexLe a b = true → lexLe b c = true → lexLe a c = true := by
  intro a
  induction a with
  | nil => intro b c _ _; rfl
  | cons x xs ih =>
    intro b c hab hbc
    cases b with
    | nil => simp [lexLe] at hab
    | cons y ys =>
      cases c with
      | nil => simp [lexLe] at hbc
      | cons z zs =>
        simp only [lexLe, Bool.or_eq_true, Bool.and_eq_true, decide_eq_true_eq,
          beq_iff_eq] at hab hbc ⊢
        rcases hab with h1 | ⟨h1, h2⟩ <;> rcases hbc with g1 | ⟨g1, g2⟩
        · exact Or.inl (by omega)
        · exact Or.inl (by omega)
        · exact Or.inl (by omega)
        · exact Or.inr ⟨by omega, ih ys zs h2 g2⟩

theorem lexLe_total : ∀ a b : List Char, lexLe a b = true ∨ lexLe b a = true := by
  intro a
  induction a with
  | nil => intro b; exact Or.inl rfl
  | cons x xs ih =>
    intro b
    cases b with
    | nil => exact Or.inr rfl
    | cons y ys =>
      simp only [lexLe, Bool.or_eq_true, Bool.and_eq_true, decide_eq_true_eq,
        beq_iff_eq]
      rcases Nat.lt_trichotomy x.toNat y.toNat with h | h | h
      · exact Or.inl (Or.inl h)
      · rcases ih ys with h' | h'
        · exact Or.inl (Or.inr ⟨h, h'⟩)
        · exact Or.inr (Or.inr ⟨h.symm, h'⟩)
      · exact Or.inr (Or.inl h)

theorem sortByFileStem_perm (rs : List Record) : (sortByFileStem rs).Perm rs :=
  List.mergeSort_perm rs _

theorem sortByFileStem_pairwise (rs : List Record) :
    List.Pairwise
      (fun a b => lexLe (pyStem a.File).data (pyStem b.File).data = true)
      (sortByFileStem rs) :=
  @List.sorted_mergeSort Record
    (fun a b => lexLe (pyStem a.File).data (pyStem b.File).data)
    (fun _ _ _ hab hbc => lexLe_trans _ _ _ hab hbc)
    (fun _ _ => Bool.or_eq_true_iff.mpr (lexLe_total _ _)) rs

/-- C2: whenever the record count differs from the point-cloud file count, or
some record's `File` stem has no fuzzy-match candidate at or above the
cutoff, `sync_json_pcd_filenames` aborts without writing anything — it
returns `none`, so no record's `File` field is modified and the stored file
is untouched (all-or-nothing, no partial-match mode). -/
theorem sync_aborts_without_write (sim : String → String → ℚ)
    (data : List Record) (listing : List String) (cutoff : ℚ)
    (h : data.length ≠ (pcdFiles listing).length ∨
      ∃ r ∈ data, get_close_matches1 sim (pyStem r.File) (basenamesOf listing)
        cutoff = none) :
    sync_json_pcd_filenames sim data listing cutoff = none := by
  rcases h with h | ⟨r, hr, hfail⟩
  · rw [sync_json_pcd_filenames, if_neg h]
  · rw [sync_json_pcd_filenames]
    by_cases hlen : data.length = (pcdFiles listing).length
    · rw [if_pos hlen, matchAll_none_of_fail sim data _ cutoff r hr hfail]
    · rw [if_neg hlen]

/-- C2 witness: two records against a one-file directory hit the count
mismatch and nothing is written. -/
theorem sync_aborts_without_write_witness :
    sync_json_pcd_filenames eqSim
      [{ File := ("a"), Labels := [] }, { File := ("b"), Labels := [] }]
      [("a.pcd")] (3 / 5) = none := by
  apply sync_aborts_without_write
  left
  decide

/-- C3 (amended): whenever reconciliation succeeds, each output record keeps
its `Labels` and carries `File = matched_stem ++ ".pcd"` for the stem its
original record fuzzy-matched (the source re-attaches the literal lowercase
`".pcd"`, which equals the matched point-cloud filename exactly when that
file's extension is spelled `.pcd`), and the output is sorted ascending by
the `File` stem.  Round trip: when every file passes the `.pcd` filter, the
counts agree, every record's stem occurs among the directory stems, and the
similarity function is 1 exactly on equal strings (as
`difflib.SequenceMatcher.ratio` is) with the cutoff at most 1, then
reconciliation succeeds and the output is a permutation — sorted by stem —
of the records with `File := stem ++ ".pcd"`, i.e. `File` values unchanged
up to extension. -/
theorem sync_success_rewrites_and_sorts :
    (∀ (sim : String → String → ℚ) (data : List Record) (listing : List String)
        (cutoff : ℚ) (out : List Record),
      sync_json_pcd_filenames sim data listing cutoff = some out →
        out.length = data.length ∧
        List.Pairwise
          (fun a b => lexLe (pyStem a.File).data (pyStem b.File).data = true) out ∧
        ∀ r ∈ out, ∃ orig ∈ data, r.Labels = orig.Labels ∧
          ∃ m, get_close_matches1 sim (pyStem orig.File) (basenamesOf listing)
              cutoff = some m ∧
            r.File = m ++ (".pcd")) ∧
    (∀ (sim : String → String → ℚ) (data : List Record) (listing : List String)
        (cutoff : ℚ),
      pcdFiles listing = listing →
      data.length = listing.length →
      (∀ r ∈ data, pyStem r.File ∈ listing.map pyStem) →
      (∀ a, sim a a = 1) →
      (∀ a b, a ≠ b → sim a b < 1) →
      cutoff ≤ 1 →
      ∃ out, sync_json_pcd_filenames sim data listing cutoff = some out ∧
        out.Perm (data.map (fun r => { r with File := pyStem r.File ++ (".pcd") })) ∧
        List.Pairwise
          (fun a b => lexLe (pyStem a.File).data (pyStem b.File).data = true) out) := by
  constructor
  · intro sim data listing cutoff out h
    rw [sync_json_pcd_filenames] at h
    by_cases hlen : data.length = (pcdFiles listing).length
    · rw [if_pos hlen] at h
      cases hma : matchAll sim data (basenamesOf listing) cutoff with
      | none => rw [hma] at h; cases h
      | some nf =>
        rw [hma] at h
        injection h with h
        obtain ⟨hnf, hspec⟩ := matchAll_some_spec sim data _ cutoff nf hma
        have hul : ((data.zip nf).map
            (fun p => ({ p.1 with File := p.2 } : Record))).length = data.length := by
          rw [List.length_map, List.length_zip, hnf, Nat.min_self]
        refine ⟨?_, ?_, ?_⟩
        · rw [← h, (sortByFileStem_perm _).length_eq, hul]
        · rw [← h]; exact sortByFileStem_pairwise _
        · intro r hr
          rw [← h] at hr
          have hr' : r ∈ (data.zip nf).map (fun p => ({ p.1 with File := p.2 } : Record)) :=
            ((sortByFileStem_perm _).mem_iff).mp hr
          obtain ⟨i, hi⟩ := List.mem_iff_getElem?.mp hr'
          rw [List.getElem?_map] at hi
          obtain ⟨p, hp, hpr⟩ := Option.map_eq_some'.mp hi
          obtain ⟨hp1, hp2⟩ := zip_getElem? data nf i p hp
          obtain ⟨m, hm, hnm⟩ := hspec i p.1 hp1
          refine ⟨p.1, List.mem_iff_getElem?.mpr ⟨i, hp1⟩, ?_, m, hm, ?_⟩
          · rw [← hpr]
          · rw [hp2] at hnm
            injection hnm with hnm
            rw [← hpr, ← hnm]
    · rw [if_neg hlen] at h; cases h
  · intro sim data listing cutoff hfil hlen hmem hs1 hs2 hcut
    have hbase : basenamesOf listing = listing.map pyStem := by
      rw [basenamesOf, hfil]
    have hmatch : ∀ r ∈ data,
        get_close_matches1 sim (pyStem r.File) (basenamesOf listing) cutoff
          = some (pyStem r.File) := by
      intro r hr
      rw [hbase]
      exact gcm1_self sim _ _ cutoff (hbase ▸ hmem r hr) (hs1 _)
        (fun x hx => hs2 _ x (fun hh => hx hh.symm)) hcut
    have hma := matchAll_of_self sim data (basenamesOf listing) cutoff hmatch
    have hupd := zip_map_self data (fun r => pyStem r.File ++ (".pcd"))
      (fun r f => ({ r with File := f } : Record))
    refine ⟨sortByFileStem (data.map
      (fun r => { r with File := pyStem r.File ++ (".pcd") })), ?_, ?_, ?_⟩
    · rw [sync_json_pcd_filenames, if_pos (by rw [hfil]; exact hlen), hma]
      exact congrArg (fun l => some (sortByFileStem l)) hupd
    · exact sortByFileStem_perm _
    · exact sortByFileStem_pairwise _

/-- C3 counterexample: a directory whose single file spells its extension
`.PCD` passes the (case-folded) filter, the record matches its stem, and
reconciliation succeeds — but the rewritten `File` value is `A.pcd`, not the
matched point-cloud filename `A.PCD`: the source re-attaches a literal
lowercase `".pcd"` rather than the matched file's own extension.  The
similarity function is evaluated only at `("A", "A")`, where
`difflib.SequenceMatcher.ratio` also returns 1. -/
theorem sync_extension_counterexample :
    sync_json_pcd_filenames eqSim [{ File := ("A"), Labels := [] }]
        [("A.PCD")] (3 / 5)
      = some [{ File := ("A.pcd"), Labels := [] }] ∧
    ("A.pcd" : String) ≠ ("A.PCD") := by
  constructor
  · have h1 : pcdFiles [("A.PCD")] = [("A.PCD")] := by decide
    have h2 : basenamesOf [("A.PCD")] = [("A")] := by decide
    have h3 : get_close_matches1 eqSim (pyStem ("A")) [("A")] (3 / 5)
        = some ("A") := by
      have hst : pyStem ("A") = ("A") := by decide
      rw [hst]
      apply gcm1_self
      · decide
      · simp [eqSim]
      · intro x hx
        simp only [eqSim]
        rw [if_neg (fun hh => hx hh.symm)]
        norm_num
      · norm_num
    have h4 : matchAll eqSim [{ File := ("A"), Labels := [] }] [("A")] (3 / 5)
        = some [("A.pcd")] := by
      simp only [matchAll, h3]
      rfl
    have h5 : sortByFileStem [{ File := ("A.pcd"), Labels := [] }]
        = [{ File := ("A.pcd"), Labels := [] }] :=
      List.perm_singleton.mp (sortByFileStem_perm _)
    rw [sync_json_pcd_filenames, if_pos (by decide), h2, h4]
    exact congrArg some h5
  · decide

/-- C3 witness for the amended theorem: two records whose stems equal the
stems of a two-file directory reconcile successfully into a stem-sorted
permutation with `.pcd` re-attached. -/
theorem sync_success_witness :
    ∃ out, sync_json_pcd_filenames eqSim
        [{ File := ("b"), Labels := [] }, { File := ("a"), Labels := [] }]
        [("a.pcd"), ("b.pcd")] (3 / 5) = some out ∧
      out.Perm (([{ File := ("b"), Labels := [] },
        { File := ("a"), Labels := [] }] : List Record).map
          (fun r => { r with File := pyStem r.File ++ (".pcd") })) ∧
      List.Pairwise
        (fun a b => lexLe (pyStem a.File).data (pyStem b.File).data = true) out :=
  sync_success_rewrites_and_sorts.2 eqSim
    [{ File := ("b"), Labels := [] }, { File := ("a"), Labels := [] }]
    [("a.pcd"), ("b.pcd")] (3 / 5)
    (by decide) (by decide) (by decide)
    (fun a => by simp [eqSim])
    (fun a b hab => by
      simp only [eqSim]
      rw [if_neg hab]
      norm_num)
    (by norm_num)

/-- C9: the per-frame fallback lookup first returns the directory file (in
listing order) bearing the exact `cloud_<stem>_` prefix when one exists;
otherwise, when the fuzzy matcher finds a best candidate at or above `0.6`
among the directory-file stems, it returns that candidate with `.pcd`
re-attached (a candidate that is in the stem list, scores at least `3/5`,
and scores at least as high as every other stem above the cutoff); otherwise
it returns no file.  The lookup is a pure function of the file reference and
the listing — it takes no record and can mutate nothing. -/
theorem find_pcd_prefix_then_fuzzy (sim : String → String → ℚ) (img : String)
    (files : List String) :
    (∀ f, (files.filter (fun g => pyEndsWith g (".pcd"))).find?
        (fun g => pyStartsWith g (("cloud_") ++ pyStem img ++ ("_"))) = some f →
      _find_pcd sim img files = some f ∧
      f ∈ files.filter (fun g => pyEndsWith g (".pcd")) ∧
      pyStartsWith f (("cloud_") ++ pyStem img ++ ("_")) = true) ∧
    ((files.filter (fun g => pyEndsWith g (".pcd"))).find?
        (fun g => pyStartsWith g (("cloud_") ++ pyStem img ++ ("_"))) = none →
      (∀ m, get_close_matches1 sim (pyStem img)
          ((files.filter (fun g => pyEndsWith g (".pcd"))).map pyStem) (3 / 5)
            = some m →
        _find_pcd sim img files = some (m ++ (".pcd")) ∧
        m ∈ (files.filter (fun g => pyEndsWith g (".pcd"))).map pyStem ∧
        3 / 5 ≤ sim (pyStem img) m ∧
        ∀ x ∈ (files.filter (fun g => pyEndsWith g (".pcd"))).map pyStem,
          3 / 5 ≤ sim (pyStem img) x → sim (pyStem img) x ≤ sim (pyStem img) m) ∧
      (get_close_matches1 sim (pyStem img)
          ((files.filter (fun g => pyEndsWith g (".pcd"))).map pyStem) (3 / 5)
            = none →
        _find_pcd sim img files = none)) := by
  constructor
  · intro f hf
    have hps := List.find?_some hf
    refine ⟨?_, List.mem_of_find?_eq_some hf, hps⟩
    simp only [_find_pcd]
    rw [hf]
  · intro hnone
    constructor
    · intro m hm
      obtain ⟨hmem, hcut, hmax⟩ := gcm1_some_spec sim (pyStem img) _ (3 / 5) m hm
      refine ⟨?_, hmem, hcut, hmax⟩
      simp only [_find_pcd]
      rw [hnone, hm]
      rfl
    · intro hm
      simp only [_find_pcd]
      rw [hnone, hm]
      rfl

/-- C9 witness: a listing with an exact `cloud_<stem>_`-prefixed file
resolves to that file. -/
theorem find_pcd_prefix_witness :
    _find_pcd eqSim ("img1.png") [("cloud_img1_0.pcd")]
        = some ("cloud_img1_0.pcd") ∧
      ("cloud_img1_0.pcd")
        ∈ [("cloud_img1_0.pcd")].filter (fun g => pyEndsWith g (".pcd")) ∧
      pyStartsWith ("cloud_img1_0.pcd")
        (("cloud_") ++ pyStem ("img1.png") ++ ("_")) = true :=
  (find_pcd_prefix_then_fuzzy eqSim ("img1.png") [("cloud_img1_0.pcd")]).1
    ("cloud_img1_0.pcd") (by decide)

/-- C1: for a label with at least 7 stored scalars, a rectangle commit in
the view with axis pair A overwrites exactly the two center slots and two
extent slots belonging to A's axes with `center = pos + size/2` and
`extent = size` — xy writes slots 0,1,3,4; xz writes 0,2,3,5; yz writes
1,2,4,5 — and leaves the remaining center slot, remaining extent slot, the
yaw slot 6 and every trailing scalar beyond the first 7 unchanged. -/
theorem roi_rect_commit_updates_only_view_axes (px py sx sy : ℚ)
    (full : List ℚ) (h : 7 ≤ full.length) :
    (∃ o, _roi_moved Axes.xy px py sx sy full = some o ∧
      o.length = full.length ∧
      o.getD 0 0 = px + sx * (1 / 2) ∧ o.getD 1 0 = py + sy * (1 / 2) ∧
      o.getD 3 0 = sx ∧ o.getD 4 0 = sy ∧
      o.getD 2 0 = full.getD 2 0 ∧ o.getD 5 0 = full.getD 5 0 ∧
      o.getD 6 0 = full.getD 6 0 ∧ o.drop 7 = full.drop 7) ∧
    (∃ o, _roi_moved Axes.xz px py sx sy full = some o ∧
      o.length = full.length ∧
      o.getD 0 0 = px + sx * (1 / 2) ∧ o.getD 2 0 = py + sy * (1 / 2) ∧
      o.getD 3 0 = sx ∧ o.getD 5 0 = sy ∧
      o.getD 1 0 = full.getD 1 0 ∧ o.getD 4 0 = full.getD 4 0 ∧
      o.getD 6 0 = full.getD 6 0 ∧ o.drop 7 = full.drop 7) ∧
    (∃ o, _roi_moved Axes.yz px py sx sy full = some o ∧
      o.length = full.length ∧
      o.getD 1 0 = px + sx * (1 / 2) ∧ o.getD 2 0 = py + sy * (1 / 2) ∧
      o.getD 4 0 = sx ∧ o.getD 5 0 = sy ∧
      o.getD 0 0 = full.getD 0 0 ∧ o.getD 3 0 = full.getD 3 0 ∧
      o.getD 6 0 = full.getD 6 0 ∧ o.drop 7 = full.drop 7) ∧
    (px = 2 → py = 3 → sx = 4 → sy = 5 →
      ∃ o, _roi_moved Axes.xy px py sx sy full = some o ∧
        o.getD 0 0 = 4 ∧ o.getD 1 0 = 5.5 ∧ o.getD 3 0 = 4 ∧ o.getD 4 0 = 5) := by
  have exy : _roi_moved Axes.xy px py sx sy full
      = some ((px + sx * (1 / 2)) :: (py + sy * (1 / 2)) :: full.getD 2 0 ::
          sx :: sy :: full.getD 5 0 :: full.getD 6 0 :: full.drop 7) := by
    rw [_roi_moved, if_pos h]
  have exz : _roi_moved Axes.xz px py sx sy full
      = some ((px + sx * (1 / 2)) :: full.getD 1 0 :: (py + sy * (1 / 2)) ::
          sx :: full.getD 4 0 :: sy :: full.getD 6 0 :: full.drop 7) := by
    rw [_roi_moved, if_pos h]
  have eyz : _roi_moved Axes.yz px py sx sy full
      = some (full.getD 0 0 :: (px + sx * (1 / 2)) :: (py + sy * (1 / 2)) ::
          full.getD 3 0 :: sx :: sy :: full.getD 6 0 :: full.drop 7) := by
    rw [_roi_moved, if_pos h]
  have hlen : ∀ t0 t1 t2 t3 t4 t5 t6 : ℚ,
      (t0 :: t1 :: t2 :: t3 :: t4 :: t5 :: t6 :: full.drop 7).length
        = full.length := by
    intro t0 t1 t2 t3 t4 t5 t6
    simp only [List.length_cons, List.length_drop]
    omega
  refine ⟨⟨_, exy, hlen _ _ _ _ _ _ _, rfl, rfl, rfl, rfl, rfl, rfl, rfl, rfl⟩,
    ⟨_, exz, hlen _ _ _ _ _ _ _, rfl, rfl, rfl, rfl, rfl, rfl, rfl, rfl⟩,
    ⟨_, eyz, hlen _ _ _ _ _ _ _, rfl, rfl, rfl, rfl, rfl, rfl, rfl, rfl⟩,
    ?_⟩
  intro hpx hpy hsx hsy
  subst hpx; subst hpy; subst hsx; subst hsy
  exact ⟨_, exy, by norm_num, by norm_num, rfl, rfl⟩

/-- C1 witness: the spec's concrete instance — editing the xy rectangle to
position (2,3), size (4,5) on a 7-scalar box yields cx = 4, cy = 5.5,
w = 4, h = 5. -/
theorem roi_rect_commit_witness :
    ∃ o, _roi_moved Axes.xy 2 3 4 5 ([0, 0, 9, 1, 1, 2, 3] : List ℚ) = some o ∧
      o.getD 0 0 = 4 ∧ o.getD 1 0 = 5.5 ∧ o.getD 3 0 = 4 ∧ o.getD 4 0 = 5 :=
  (roi_rect_commit_updates_only_view_axes 2 3 4 5 [0, 0, 9, 1, 1, 2, 3]
    (by decide)).2.2.2 rfl rfl rfl rfl

/-- C4 (amended): the `w, h, d > 0` invariant is not enforced on the mutation
path — a rectangle commit passes the rectangle's sizes into the Store as the
extents verbatim, with no validation between `_roi_moved` and
`_set_bbox_params`, so a commit with non-positive sizes stores non-positive
extents.  (Only `_add_label`'s default box guarantees positive extents.) -/
theorem roi_commit_stores_extents_unvalidated (labs : List Label) (idx : Nat)
    (px py sx sy : ℚ) (hidx : idx < labs.length)
    (hlen : 7 ≤ (_bbox_params labs idx).length) :
    ∃ lab, (roiCommit labs idx Axes.xy px py sx sy)[idx]? = some lab ∧
      lab.BoundingBoxes.getD 3 0 = sx ∧ lab.BoundingBoxes.getD 4 0 = sy := by
  have e : _roi_moved Axes.xy px py sx sy (_bbox_params labs idx)
      = some ((px + sx * (1 / 2)) :: (py + sy * (1 / 2)) ::
          (_bbox_params labs idx).getD 2 0 :: sx :: sy ::
          (_bbox_params labs idx).getD 5 0 ::
          (_bbox_params labs idx).getD 6 0 ::
          (_bbox_params labs idx).drop 7) := by
    rw [_roi_moved, if_pos hlen]
  have hco : roiCommit labs idx Axes.xy px py sx sy
      = _set_bbox_params labs idx ((px + sx * (1 / 2)) :: (py + sy * (1 / 2)) ::
          (_bbox_params labs idx).getD 2 0 :: sx :: sy ::
          (_bbox_params labs idx).getD 5 0 ::
          (_bbox_params labs idx).getD 6 0 ::
          (_bbox_params labs idx).drop 7) := by
    rw [roiCommit, e]
  refine ⟨{ (labs.getD idx emptyLabel) with BoundingBoxes :=
      ((px + sx * (1 / 2)) :: (py + sy * (1 / 2)) ::
       (_bbox_params labs idx).getD 2 0 :: sx :: sy ::
       (_bbox_params labs idx).getD 5 0 :: (_bbox_params labs idx).getD 6 0 ::
       (_bbox_params labs idx).drop 7) }, ?_, rfl, rfl⟩
  rw [hco, _set_bbox_params, List.getElem?_set, if_pos rfl, if_pos hidx]

/-- C4 counterexample: committing the xy rectangle with size (0, 0) on a
stored unit box is not rejected — the Store ends up holding a box with
`w = h = 0`, a non-positive extent, refuting the claimed validation gate. -/
theorem zero_size_commit_counterexample :
    roiCommit [{ Class := ("human1"), BoundingBoxes := [0, 0, 0, 1, 1, 1, 0] }]
        0 Axes.xy 0 0 0 0
      = [{ Class := ("human1"), BoundingBoxes := [0, 0, 0, 0, 0, 1, 0] }] ∧
    ¬ (0 : ℚ) < 0 := by
  constructor
  · have hz : (0 : ℚ) + 0 * (1 / 2) = 0 := by norm_num
    rw [roiCommit]
    show _set_bbox_params
        [{ Class := ("human1"), BoundingBoxes := [0, 0, 0, 1, 1, 1, 0] }] 0
        [0 + 0 * (1 / 2), 0 + 0 * (1 / 2), 0, 0, 0, 1, 0]
      = [{ Class := ("human1"), BoundingBoxes := [0, 0, 0, 0, 0, 1, 0] }]
    rw [_set_bbox_params, hz]
    rfl
  · exact lt_irrefl 0

/-- C4 witness for the amended theorem: a zero-size commit on a one-label
frame stores extents 0 and 0 verbatim. -/
theorem roi_commit_unvalidated_witness :
    ∃ lab, (roiCommit
        [{ Class := ("human1"), BoundingBoxes := [0, 0, 0, 1, 1, 1, 0] }]
        0 Axes.xy 0 0 0 0)[0]? = some lab ∧
      lab.BoundingBoxes.getD 3 0 = 0 ∧ lab.BoundingBoxes.getD 4 0 = 0 :=
  roi_commit_stores_extents_unvalidated
    [{ Class := ("human1"), BoundingBoxes := [0, 0, 0, 1, 1, 1, 0] }]
    0 0 0 0 0 (by decide) (by decide)

/-- C5: for any center, positive extents and any rotation pair
`(c, s) = (cos yaw, sin yaw)`, `_corners` returns exactly 8 points — built
by scaling the unit cube by the half-extents, rotating about the vertical
axis by the matrix `[[c, -s, 0], [s, c, 0], [0, 0, 1]]` and translating by
the center, which is its definition — and their centroid is exactly
`(cx, cy, cz)` (the exact-arithmetic form of the spec's "within numeric
tolerance"). -/
theorem corners_count_and_centroid (cx cy cz w h d c s : ℚ)
    (hw : 0 < w) (hh : 0 < h) (hd : 0 < d) :
    (_corners cx cy cz w h d c s).length = 8 ∧
    centroid (_corners cx cy cz w h d c s) = (cx, cy, cz) := by
  refine ⟨rfl, ?_⟩
  show centroid (_corners cx cy cz w h d c s) = (cx, cy, cz)
  rw [centroid, if_neg (by rw [show (_corners cx cy cz w h d c s).length = 8 from rfl]; omega)]
  rw [_corners]
  simp only [List.map_cons, List.map_nil, List.sum_cons, List.sum_nil]
  refine Prod.ext ?_ (Prod.ext ?_ ?_)
  · show ((w / 2 * c - h / 2 * s + cx) + ((w / 2 * c - -(h / 2) * s + cx) +
      ((-(w / 2) * c - -(h / 2) * s + cx) + ((-(w / 2) * c - h / 2 * s + cx) +
      ((w / 2 * c - h / 2 * s + cx) + ((w / 2 * c - -(h / 2) * s + cx) +
      ((-(w / 2) * c - -(h / 2) * s + cx) + ((-(w / 2) * c - h / 2 * s + cx) + 0))))))))
        / ((8 : Nat) : ℚ) = cx
    push_cast
    ring
  · show ((w / 2 * s + h / 2 * c + cy) + ((w / 2 * s + -(h / 2) * c + cy) +
      ((-(w / 2) * s + -(h / 2) * c + cy) + ((-(w / 2) * s + h / 2 * c + cy) +
      ((w / 2 * s + h / 2 * c + cy) + ((w / 2 * s + -(h / 2) * c + cy) +
      ((-(w / 2) * s + -(h / 2) * c + cy) + ((-(w / 2) * s + h / 2 * c + cy) + 0))))))))
        / ((8 : Nat) : ℚ) = cy
    push_cast
    ring
  · show ((d / 2 + cz) + ((d / 2 + cz) + ((d / 2 + cz) + ((d / 2 + cz) +
      ((-(d / 2) + cz) + ((-(d / 2) + cz) + ((-(d / 2) + cz) + ((-(d / 2) + cz) + 0))))))))
        / ((8 : Nat) : ℚ) = cz
    push_cast
    ring

/-- C5 witness: a concrete positive-extent box with rotation pair (0, 1)
(yaw = 90 degrees) has 8 corners whose centroid is its center. -/
theorem corners_centroid_witness :
    (_corners 1 2 3 2 4 6 0 1).length = 8 ∧
    centroid (_corners 1 2 3 2 4 6 0 1) = (1, 2, 3) :=
  corners_count_and_centroid 1 2 3 2 4 6 0 1 (by norm_num) (by norm_num)
    (by norm_num)

/-- C6: a rotation-control commit with degree value `deg` on a label with at
least 7 parameters overwrites only the yaw slot (6), setting it to
`radians deg`, leaving every other slot — centers, extents and all trailing
scalars — and the length unchanged; `radians 90 = π/2`; and re-syncing the
control from the stored parameters after a 90-degree commit displays 90
again (`_sync_slider` is a pure read of the store and writes nothing). -/
theorem rot_commit_sets_only_yaw (deg : ℝ) (params : List ℝ)
    (h : 7 ≤ params.length) :
    (_rot_bbox deg params).length = params.length ∧
    (_rot_bbox deg params).getD 6 0 = radians deg ∧
    (∀ i : Nat, i ≠ 6 → (_rot_bbox deg params).getD i 0 = params.getD i 0) ∧
    radians 90 = Real.pi / 2 ∧
    _sync_slider (_rot_bbox 90 params) = 90 := by
  have h6 : 6 < params.length := by omega
  have hget : ∀ x : ℝ, (params.set 6 x).getD 6 0 = x := by
    intro x
    rw [List.getD_eq_getElem?_getD, List.getElem?_set, if_pos rfl, if_pos h6]
    rfl
  refine ⟨List.length_set params 6 _, ?_, ?_, ?_, ?_⟩
  · rw [_rot_bbox]
    exact hget _
  · intro i hi
    rw [_rot_bbox, List.getD_eq_getElem?_getD,
      List.getElem?_set_ne (fun hh => hi hh.symm), ← List.getD_eq_getElem?_getD]
  · rw [radians]
    ring
  · rw [_sync_slider, _rot_bbox, hget]
    have hdeg : degrees (radians 90) = 90 := by
      rw [radians, degrees]
      field_simp
    rw [hdeg, pymod]
    have hfl : ⌊(90 : ℝ) / 360⌋ = 0 := by
      rw [Int.floor_eq_zero_iff]
      constructor <;> norm_num
    rw [hfl]
    norm_num

/-- C6 witness: on a 9-scalar parameter list, a 45-degree commit stores
`radians 45` in slot 6, and after a 90-degree commit the control re-syncs to
90. -/
theorem rot_commit_witness :
    (_rot_bbox 45 ([0, 0, 0, 1, 1, 1, 0, 0, 0] : List ℝ)).getD 6 0 = radians 45 ∧
    _sync_slider (_rot_bbox 90 ([0, 0, 0, 1, 1, 1, 0, 0, 0] : List ℝ)) = 90 :=
  ⟨(rot_commit_sets_only_yaw 45 [0, 0, 0, 1, 1, 1, 0, 0, 0] (by decide)).2.1,
   (rot_commit_sets_only_yaw 90 [0, 0, 0, 1, 1, 1, 0, 0, 0] (by decide)).2.2.2.2⟩

/-- C7: deleting a valid, confirmed label index removes exactly the label at
that index: the frame has one label fewer, labels at lower indices are
unchanged, and every label at a higher index shifts down by one. -/
theorem delete_label_shifts_down (labs : List Label) (idx : Nat)
    (hidx : idx < labs.length) :
    (_delete_label labs idx true).length = labs.length - 1 ∧
    (∀ j : Nat, j < idx → (_delete_label labs idx true)[j]? = labs[j]?) ∧
    (∀ j : Nat, idx ≤ j → (_delete_label labs idx true)[j]? = labs[j + 1]?) := by
  have he : _delete_label labs idx true = labs.eraseIdx idx := by
    rw [_delete_label, if_pos ⟨hidx, rfl⟩]
  rw [he]
  refine ⟨?_, fun j hj => ?_, fun j hj => ?_⟩
  · rw [List.length_eraseIdx, if_pos hidx]
  · rw [List.getElem?_eraseIdx, if_pos hj]
  · rw [List.getElem?_eraseIdx, if_neg (by omega)]

/-- C7 witness: the spec's concrete instance — deleting index 1 from a
3-label frame leaves 2 labels, keeps the former index 0 at index 0, and
moves the former index 2 to index 1. -/
theorem delete_label_witness :
    (_delete_label [{ Class := ("a"), BoundingBoxes := [] },
      { Class := ("b"), BoundingBoxes := [] },
      { Class := ("c"), BoundingBoxes := [] }] 1 true).length = 3 - 1 ∧
    (_delete_label [{ Class := ("a"), BoundingBoxes := [] },
      { Class := ("b"), BoundingBoxes := [] },
      { Class := ("c"), BoundingBoxes := [] }] 1 true)[0]?
      = some { Class := ("a"), BoundingBoxes := [] } ∧
    (_delete_label [{ Class := ("a"), BoundingBoxes := [] },
      { Class := ("b"), BoundingBoxes := [] },
      { Class := ("c"), BoundingBoxes := [] }] 1 true)[1]?
      = some { Class := ("c"), BoundingBoxes := [] } := by
  refine ⟨(delete_label_shifts_down _ 1 (by decide)).1, ?_, ?_⟩
  · rw [(delete_label_shifts_down _ 1 (by decide)).2.1 0 (by decide)]
    decide
  · rw [(delete_label_shifts_down _ 1 (by decide)).2.2 1 (by decide)]
    decide

/-- C8: with a confirmed dialog and a nonblank class name (the text as the
operation receives it — the dialog glue strips surrounding whitespace, so
the accepted text is its own strip), the add operation appends exactly one
label at the last position: the existing labels are unchanged, the new
label's index is the previous length, its class is the provided text and
its box is a unit-extent (slots 3,4,5 = 1), zero-yaw (slot 6 = 0) box
centered at the active point cloud's centroid (slots 0,1,2). -/
theorem add_label_appends_default_box (pts : List (ℚ × ℚ × ℚ))
    (labs : List Label) (txt : String)
    (hs : pyStrip txt = txt) (hne : txt ≠ ("")) :
    ∃ out, _add_label pts labs true txt = some out ∧
      out.take labs.length = labs ∧
      out.length = labs.length + 1 ∧
      ∃ lab, out[labs.length]? = some lab ∧
        lab.Class = txt ∧
        lab.BoundingBoxes.getD 3 0 = 1 ∧ lab.BoundingBoxes.getD 4 0 = 1 ∧
        lab.BoundingBoxes.getD 5 0 = 1 ∧ lab.BoundingBoxes.getD 6 0 = 0 ∧
        (lab.BoundingBoxes.getD 0 0, lab.BoundingBoxes.getD 1 0,
          lab.BoundingBoxes.getD 2 0) = centroid pts := by
  have he : _add_label pts labs true txt
      = some (labs ++ [{ Class := pyStrip txt,
                         BoundingBoxes := [(centroid pts).1, (centroid pts).2.1,
                           (centroid pts).2.2, 1, 1, 1, 0, 0, 0] }]) := by
    rw [_add_label, if_pos ⟨rfl, by rw [hs]; exact hne⟩]
  refine ⟨_, he, List.take_left labs _, by simp, _,
    List.getElem?_concat_length labs _, by rw [hs], rfl, rfl, rfl, rfl, rfl⟩

/-- C8 witness: adding label "human1" to an empty frame over a two-point
cloud appends one label at index 0 with a unit, zero-yaw box at the cloud's
centroid. -/
theorem add_label_witness :
    ∃ out, _add_label [((1 : ℚ), (2 : ℚ), (3 : ℚ)), ((3 : ℚ), (2 : ℚ), (1 : ℚ))]
        [] true ("human1") = some out ∧
      out.take 0 = ([] : List Label) ∧
      out.length = 0 + 1 ∧
      ∃ lab, out[(0 : Nat)]? = some lab ∧
        lab.Class = ("human1") ∧
        lab.BoundingBoxes.getD 3 0 = 1 ∧ lab.BoundingBoxes.getD 4 0 = 1 ∧
        lab.BoundingBoxes.getD 5 0 = 1 ∧ lab.BoundingBoxes.getD 6 0 = 0 ∧
        (lab.BoundingBoxes.getD 0 0, lab.BoundingBoxes.getD 1 0,
          lab.BoundingBoxes.getD 2 0)
          = centroid [((1 : ℚ), (2 : ℚ), (3 : ℚ)), ((3 : ℚ), (2 : ℚ), (1 : ℚ))] :=
  add_label_appends_default_box
    [((1 : ℚ), (2 : ℚ), (3 : ℚ)), ((3 : ℚ), (2 : ℚ), (1 : ℚ))] [] ("human1")
    (by decide) (by decide)

/-- C10: every label the add operation creates carries exactly 9 box
scalars — the 3 centroid coordinates, the 3 unit extents, yaw 0 and two
trailing zero-valued slots beyond the 7 required parameters. -/
theorem add_label_box_has_nine_params (pts : List (ℚ × ℚ × ℚ))
    (labs : List Label) (ok : Bool) (txt : String) (out : List Label)
    (h : _add_label pts labs ok txt = some out) :
    ∃ lab, out = labs ++ [lab] ∧
      lab.BoundingBoxes = [(centroid pts).1, (centroid pts).2.1,
        (centroid pts).2.2, 1, 1, 1, 0, 0, 0] ∧
      lab.BoundingBoxes.length = 9 ∧
      lab.BoundingBoxes.drop 7 = [0, 0] := by
  rw [_add_label] at h
  by_cases hc : ok = true ∧ pyStrip txt ≠ ("")
  · rw [if_pos hc] at h
    injection h with h
    exact ⟨_, h.symm, rfl, rfl, rfl⟩
  · rw [if_neg hc] at h
    cases h

/-- C10 witness: the label added to an empty frame over an empty cloud has
box `[0, 0, 0, 1, 1, 1, 0, 0, 0]` — 9 scalars with two trailing zeros. -/
theorem add_label_nine_witness :
    ∃ lab, [{ Class := ("x"), BoundingBoxes := [0, 0, 0, 1, 1, 1, 0, 0, 0] }]
        = ([] : List Label) ++ [lab] ∧
      lab.BoundingBoxes = [(centroid []).1, (centroid []).2.1,
        (centroid []).2.2, 1, 1, 1, 0, 0, 0] ∧
      lab.BoundingBoxes.length = 9 ∧
      lab.BoundingBoxes.drop 7 = [0, 0] :=
  add_label_box_has_nine_params [] [] true ("x")
    [{ Class := ("x"), BoundingBoxes := [0, 0, 0, 1, 1, 1, 0, 0, 0] }]
    (by rw [_add_label, if_pos ⟨rfl, by decide⟩]; rfl)

end PcdCheckJson
